import Mathlib

/-!
Verification development for the PDF-Pile repository.

The definitions below are a shallow embedding of the annotation core of
`src/unnamed/part_000` (the `PdfViewPage` component: geometry mapper,
annotation store, bounded undo history, note popup handlers) and of the
relevant routes of `src/server/index.js`.

Modelling conventions:
* Screen and page coordinates are rationals (the source uses JS numbers;
  every computation involved is `+ - * /`, modelled exactly over `ℚ`).
* JS strings are Lean `String`s (a structure over `List Char`); the JS
  `String.prototype.trim` is modelled by `jsTrim` below, which removes
  leading and trailing whitespace from the character list (this agrees
  with JS on the ASCII whitespace actually reachable here).
* The history stack `historyRef.current` is a JS array with `push`/`pop`
  at the high end and `shift` (eviction of the oldest snapshot) at the low
  end.  It is modelled as a list with the NEWEST snapshot first: JS `push`
  becomes `cons`, JS `pop` becomes taking the head, JS `shift` becomes
  `dropLast`.
* `Object.entries` over a record keyed by the integer `pageIndex`
  enumerates integer-like keys in ascending numeric order (ECMA-262
  ordinary own property key order); the grouping in `persistSelection` is
  therefore modelled by enumerating candidate page indices in ascending
  order and keeping those with a non-empty group.
* Fresh `uuidv4()` identifiers are modelled by an injected generator
  `mkId : ℕ → String` applied to the position of the annotation in the
  emitted list.
-/

namespace PdfPile

set_option maxRecDepth 8192

/-! ### Data model (src/unnamed/part_000, lines 31–47) -/

/-- Page-relative percentage rectangle (interface `Rect`). -/
structure Rect where
  x : ℚ
  y : ℚ
  width : ℚ
  height : ℚ
deriving DecidableEq, Repr

/-- `'highlight' | 'underline'`. -/
inductive AnnType where
  | highlight
  | underline
deriving DecidableEq, Repr

/-- Interface `Annotation`. -/
structure Annotation where
  id : String
  type : AnnType
  pageIndex : ℕ
  rects : List Rect
  note : Option String
deriving DecidableEq, Repr

/-- `type AnnotationMode = 'highlight' | 'underline' | 'cursor'`. -/
inductive AnnotationMode where
  | highlight
  | underline
  | cursor
deriving DecidableEq, Repr

/-- A DOMRect as returned by `getClientRects` / `getBoundingClientRect`. -/
structure ScreenRect where
  left : ℚ
  top : ℚ
  width : ℚ
  height : ℚ
deriving DecidableEq, Repr

/-- `rect.right = rect.left + rect.width` for a DOMRect. -/
def ScreenRect.right (r : ScreenRect) : ℚ := r.left + r.width

/-- `rect.bottom = rect.top + rect.height` for a DOMRect. -/
def ScreenRect.bottom (r : ScreenRect) : ℚ := r.top + r.height

/-- One entry of `pageLayers` (lines 156–165): the bounding box of a
`.rpv-core__page-layer` element together with its parsed page index. -/
structure PageLayer where
  pageIndex : ℕ
  rect : ScreenRect
deriving DecidableEq, Repr

/-! ### JS string trim -/

/-- JavaScript `String.prototype.trim`: strip leading and trailing
whitespace. -/
def jsTrim (s : String) : String :=
  ⟨((s.data.dropWhile Char.isWhitespace).reverse.dropWhile Char.isWhitespace).reverse⟩

/-! ### Geometry mapper (src/unnamed/part_000, lines 153–200) -/

/-- `rect.left + rect.width / 2` (line 171). -/
def centerX (r : ScreenRect) : ℚ := r.left + r.width / 2

/-- `rect.top + rect.height / 2` (line 172). -/
def centerY (r : ScreenRect) : ℚ := r.top + r.height / 2

/-- The predicate of lines 174–179: the center of `r` lies inside the
bounding box of page layer `p`. -/
def containsCenter (p : PageLayer) (r : ScreenRect) : Bool :=
  decide (p.rect.left ≤ centerX r) && decide (centerX r ≤ p.rect.right) &&
  decide (p.rect.top ≤ centerY r) && decide (centerY r ≤ p.rect.bottom)

/-- `pageLayers.find(page => …)` (line 174). -/
def targetPageFor (pages : List PageLayer) (r : ScreenRect) : Option PageLayer :=
  pages.find? (fun p => containsCenter p r)

/-- The screen-to-page-relative conversion of lines 182–187. -/
def toRelative (p : PageLayer) (r : ScreenRect) : Rect :=
  { x := (r.left - p.rect.left) / p.rect.width * 100
    y := (r.top - p.rect.top) / p.rect.height * 100
    width := r.width / p.rect.width * 100
    height := r.height / p.rect.height * 100 }

/-- Line 153: `filter(rect => rect.width > 0 && rect.height > 0)`. -/
def survivingRects (rects : List ScreenRect) : List ScreenRect :=
  rects.filter (fun r => decide (0 < r.width) && decide (0 < r.height))

/-- The contribution of one input rect to the group of key `k`: its
conversion through its assigned page when that page's index is `k`. -/
def assignRect (pages : List PageLayer) (k : ℕ) (r : ScreenRect) : Option Rect :=
  match targetPageFor pages r with
  | some p => if p.pageIndex = k then some (toRelative p r) else none
  | none => none

/-- The group `groupedRects[k]` built by lines 168–193: the converted
rects (in input order) whose center is claimed by a page layer with
index `k`. -/
def groupFor (pages : List PageLayer) (rects : List ScreenRect) (k : ℕ) : List Rect :=
  rects.filterMap (assignRect pages k)

/-- Largest page index present in the layout (bound for key enumeration). -/
def maxPageIndex (pages : List PageLayer) : ℕ :=
  (pages.map PageLayer.pageIndex).foldr max 0

/-- The keys of `groupedRects` in the order `Object.entries` yields them:
ascending numeric order, keeping only keys whose group is non-empty. -/
def groupKeys (pages : List PageLayer) (rects : List ScreenRect) : List ℕ :=
  (List.range (maxPageIndex pages + 1)).filter (fun k => !(groupFor pages rects k).isEmpty)

/-- Lines 153–200 of `persistSelection` as a pure function: zero-area
rects are discarded, each survivor is assigned to the first page layer
whose box contains its center, converted to page-relative percentages,
grouped by page index, and one annotation per non-empty group is emitted
in ascending page-index order. -/
def mapSelectionToAnnotations (mkId : ℕ → String) (ty : AnnType)
    (clientRects : List ScreenRect) (pages : List PageLayer) : List Annotation :=
  let survivors := survivingRects clientRects
  (groupKeys pages survivors).enum.map (fun ik =>
    { id := mkId ik.1, type := ty, pageIndex := ik.2,
      rects := groupFor pages survivors ik.2, note := none })

/-! ### Annotation store, history stack and popup (lines 49–94, 216–294) -/

/-- `const HISTORY_LIMIT = 50;` (line 49). -/
def HISTORY_LIMIT : ℕ := 50

/-- `cloneAnnotations` (lines 51–55): a deep copy via object spread. -/
def cloneAnnotations (annotations : List Annotation) : List Annotation :=
  annotations.map (fun a =>
    { a with rects := a.rects.map (fun r => { x := r.x, y := r.y, width := r.width, height := r.height }) })

/-- The component state relevant to the annotation core: the live
collection (`currentPdf.annotations`), the history stack (newest
snapshot first), the `canUndo` flag, and the popup controller state. -/
structure ViewState where
  annotations : List Annotation
  history : List (List Annotation)
  canUndo : Bool
  activeAnnotationId : Option String
  noteDraft : String
  popupPosition : Option (ℚ × ℚ)
deriving DecidableEq

/-- The history update performed by `pushHistorySnapshot` (lines 87–94):
push a clone of the pre-mutation collection (cons, newest first), then a
single `shift` of the oldest entry (`dropLast`) if the limit is
exceeded. -/
def pushedHistory (history : List (List Annotation)) (annotations : List Annotation) :
    List (List Annotation) :=
  let pushed := cloneAnnotations annotations :: history
  if HISTORY_LIMIT < pushed.length then pushed.dropLast else pushed

/-- `pushHistorySnapshot` (lines 87–94): updates `historyRef` and
`setCanUndo(historyRef.current.length > 0)`. -/
def pushHistorySnapshot (s : ViewState) (annotations : List Annotation) : ViewState :=
  { s with history := pushedHistory s.history annotations,
           canUndo := decide (0 < (pushedHistory s.history annotations).length) }

/-- `closeAnnotationPopup` (lines 226–230). -/
def closeAnnotationPopup (s : ViewState) : ViewState :=
  { s with activeAnnotationId := none, popupPosition := none, noteDraft := "" }

/-- `handleUndo` (lines 232–239): no-op on an empty history, otherwise
pop the most recent snapshot into the live collection, refresh `canUndo`
and close the popup.  Undo pushes nothing. -/
def handleUndo (s : ViewState) : ViewState :=
  match s.history with
  | [] => s
  | previousAnnotations :: rest =>
    closeAnnotationPopup
      { s with annotations := previousAnnotations, history := rest,
               canUndo := decide (0 < rest.length) }

/-- `noteDraft.trim() || undefined` (line 245): the empty string is falsy
in JS, so a trimmed-empty draft becomes `undefined` (here `none`). -/
def trimmedNoteOf (draft : String) : Option String :=
  if jsTrim draft = "" then none else some (jsTrim draft)

/-- `handleSaveNote` (lines 241–258). -/
def handleSaveNote (s : ViewState) : ViewState :=
  match s.activeAnnotationId with
  | none => s
  | some aid =>
    match s.annotations.find? (fun a => decide (a.id = aid)) with
    | none => s
    | some target =>
      if target.note = trimmedNoteOf s.noteDraft then closeAnnotationPopup s
      else
        closeAnnotationPopup
          { pushHistorySnapshot s s.annotations with
            annotations := s.annotations.map (fun a =>
              if a.id = aid then { a with note := trimmedNoteOf s.noteDraft } else a) }

/-- `handleDeleteAnnotation` (lines 267–280): close-only when the active
id is absent from the collection; otherwise snapshot, then remove every
annotation with that id. -/
def handleDeleteAnnotation (s : ViewState) : ViewState :=
  match s.activeAnnotationId with
  | none => s
  | some aid =>
    if s.annotations.any (fun a => decide (a.id = aid)) then
      closeAnnotationPopup
        { pushHistorySnapshot s s.annotations with
          annotations := s.annotations.filter (fun a => !decide (a.id = aid)) }
    else closeAnnotationPopup s

/-- The ambient selection state read by `persistSelection` (lines
141–154), abstracted as an injected snapshot value. -/
structure SelectionSnapshot where
  isCollapsed : Bool
  anchorInTextLayer : Bool
  text : String
  clientRects : List ScreenRect

/-- The body of `persistSelection` (lines 141–213) once the mode guard
has passed, with the requested annotation type made explicit.  Each
guard branch (collapsed selection, anchor outside the text layer, blank
selected text, no surviving rect, no page layer, empty mapping result)
returns the state unchanged. -/
def persistSelectionGo (ty : AnnType) (sel : Option SelectionSnapshot)
    (pages : List PageLayer) (mkId : ℕ → String) (s : ViewState) : ViewState :=
  match sel with
  | none => s
  | some sel =>
    if sel.isCollapsed then s
    else if !sel.anchorInTextLayer then s
    else if jsTrim sel.text = "" then s
    else if (survivingRects sel.clientRects).isEmpty then s
    else if pages.isEmpty then s
    else
      let newAnns := mapSelectionToAnnotations mkId ty sel.clientRects pages
      if newAnns.isEmpty then s
      else
        { pushHistorySnapshot s s.annotations with
          annotations := s.annotations ++ newAnns }

/-- `persistSelection` (lines 138–214).  All guard branches return the
state unchanged; the successful branch pushes one snapshot of the
pre-mutation collection and appends the freshly mapped annotations. -/
def persistSelection (mode : AnnotationMode) (sel : Option SelectionSnapshot)
    (pages : List PageLayer) (mkId : ℕ → String) (s : ViewState) : ViewState :=
  match mode with
  | .cursor => s
  | .highlight => persistSelectionGo .highlight sel pages mkId s
  | .underline => persistSelectionGo .underline sel pages mkId s

/-! ### Mutations and operations (for the history/undo claims) -/

/-- The three collection mutations of the annotation store: add (a text
selection committed by `persistSelection`), set-note (open the popup on
an annotation and commit a draft), delete (open the popup and delete). -/
inductive Mutation where
  | add (mode : AnnotationMode) (sel : Option SelectionSnapshot)
        (pages : List PageLayer) (mkId : ℕ → String)
  | setNote (aid : String) (draft : String)
  | del (aid : String)

/-- Apply one mutation through the source handlers.  For `setNote` and
`del` the popup fields are first seeded the way `openAnnotationPopup`
seeds them for the target annotation (the anchor position is irrelevant
to the store). -/
def applyMutation : Mutation → ViewState → ViewState
  | .add mode sel pages mkId, s => persistSelection mode sel pages mkId s
  | .setNote aid draft, s =>
      handleSaveNote { s with activeAnnotationId := some aid, noteDraft := draft }
  | .del aid, s =>
      handleDeleteAnnotation { s with activeAnnotationId := some aid }

/-- Apply a sequence of mutations from left to right. -/
def applyMutations : List Mutation → ViewState → ViewState
  | [], s => s
  | m :: rest, s => applyMutations rest (applyMutation m s)

/-- The collection as it was immediately before each mutation of the
sequence, in chronological order. -/
def preStates : ViewState → List Mutation → List (List Annotation)
  | _, [] => []
  | s, m :: rest => s.annotations :: preStates (applyMutation m s) rest

/-- A run is effective when every mutation in it actually changes the
collection (the spec's "state-changing" mutations). -/
def EffectiveRun : ViewState → List Mutation → Prop
  | _, [] => True
  | s, m :: rest =>
      (applyMutation m s).annotations ≠ s.annotations ∧
      EffectiveRun (applyMutation m s) rest

instance instDecidableEffectiveRun : (s : ViewState) → (ms : List Mutation) →
    Decidable (EffectiveRun s ms)
  | _, [] => .isTrue trivial
  | s, m :: rest =>
    have hd : Decidable ((applyMutation m s).annotations ≠ s.annotations) := by
      exact instDecidableNot
    have tl : Decidable (EffectiveRun (applyMutation m s) rest) :=
      instDecidableEffectiveRun (applyMutation m s) rest
    @instDecidableAnd _ _ hd tl

/-- An operation of the session: a mutation or an undo. -/
inductive Op where
  | mutOp (m : Mutation)
  | undo

/-- Apply one operation. -/
def applyOp : Op → ViewState → ViewState
  | .mutOp m, s => applyMutation m s
  | .undo, s => handleUndo s

/-- Apply a sequence of operations from left to right. -/
def applyOps : List Op → ViewState → ViewState
  | [], s => s
  | o :: rest, s => applyOps rest (applyOp o s)

/-! ### Server model (src/server/index.js) -/

/-- A record of `db.json` as created by `POST /api/upload` (lines
75–85). -/
structure PdfRecord where
  id : String
  originalName : String
  filename : String
  path : String
  title : String
  author : String
  journal : String
  annotations : List Annotation
  createdAt : String
deriving DecidableEq, Repr

/-- The body fields read by `PUT /api/pdfs/:id` (line 118):
`const { title, author, journal, annotations } = req.body;` — a missing
or `null` field is `none`. -/
structure PutBody where
  title : Option String
  author : Option String
  journal : Option String
  annotations : Option (List Annotation)
deriving DecidableEq, Repr

/-- JS `Array.prototype.findIndex` (−1 becomes `none`). -/
def findIndex (p : α → Bool) : List α → Option ℕ
  | [] => none
  | a :: as => if p a then some 0 else (findIndex p as).map (· + 1)

/-- The merge of lines 127–133: each provided (non-nullish) body field
replaces the stored one, everything else is kept. -/
def mergeRecord (old : PdfRecord) (b : PutBody) : PdfRecord :=
  { old with
    title := b.title.getD old.title
    author := b.author.getD old.author
    journal := b.journal.getD old.journal
    annotations := b.annotations.getD old.annotations }

/-- `PUT /api/pdfs/:id` (lines 116–137): 404 when the id is absent,
otherwise replace the record in place and respond with the updated
record. -/
def putPdf (db : List PdfRecord) (pid : String) (b : PutBody) :
    Except ℕ (List PdfRecord × PdfRecord) :=
  match findIndex (fun p => decide (p.id = pid)) db with
  | none => .error 404
  | some i =>
    match db.get? i with
    | none => .error 404  -- unreachable: findIndex returns an in-bounds index
    | some old => .ok (db.set i (mergeRecord old b), mergeRecord old b)

/-- `GET /api/pdfs/:id` (lines 51–60). -/
def getPdf (db : List PdfRecord) (pid : String) : Except ℕ PdfRecord :=
  match db.find? (fun p => decide (p.id = pid)) with
  | some p => .ok p
  | none => .error 404

/-! ### Concrete sample data for witnesses and counterexamples -/

def c7s : ViewState :=
  { annotations := [{ id := "a", type := .highlight, pageIndex := 0, rects := [], note := none }],
    history := [], canUndo := false, activeAnnotationId := some "zz",
    noteDraft := "", popupPosition := none }

def c5s : ViewState :=
  { annotations := [{ id := "a", type := .highlight, pageIndex := 0, rects := [],
                      note := some " " }],
    history := [], canUndo := false, activeAnnotationId := some "a",
    noteDraft := " ", popupPosition := none }

def c5ws : ViewState :=
  { annotations := [{ id := "a", type := .highlight, pageIndex := 0, rects := [],
                      note := none }],
    history := [], canUndo := false, activeAnnotationId := some "a",
    noteDraft := "  hello  ", popupPosition := none }

def c5wTarget : Annotation :=
  { id := "a", type := .highlight, pageIndex := 0, rects := [], note := none }

def c2s : ViewState :=
  { annotations := [{ id := "a", type := .highlight, pageIndex := 0, rects := [],
                      note := none }],
    history := [], canUndo := false, activeAnnotationId := none,
    noteDraft := "", popupPosition := none }

def c2ms : List Mutation := [Mutation.del ("a"), Mutation.del ("a")]

def c2ws : ViewState :=
  { annotations := [{ id := "a", type := .highlight, pageIndex := 0, rects := [],
                      note := none }],
    history := [], canUndo := false, activeAnnotationId := none,
    noteDraft := "", popupPosition := none }

def c2wms : List Mutation := [Mutation.setNote ("a") ("x"), Mutation.setNote ("a") ("y")]

/-- A string of `n` letters `x` (used to build distinct note drafts). -/
def xs (n : ℕ) : String := String.mk (List.replicate n ('x'))

/-- The single annotation of the C3 witness run after `n` note edits. -/
def c3ann (n : ℕ) : Annotation :=
  { id := "a", type := .highlight, pageIndex := 0, rects := [],
    note := if n = 0 then none else some (xs n) }

def c3ws : ViewState :=
  { annotations := [c3ann 0],
    history := [], canUndo := false, activeAnnotationId := none,
    noteDraft := "", popupPosition := none }

def c3wms : List Mutation :=
  (List.range' 1 60).map (fun j => Mutation.setNote ("a") (xs j))

def c1page : PageLayer :=
  { pageIndex := 0, rect := { left := 0, top := 0, width := 200, height := 1000 } }

def c1rects : List ScreenRect := [{ left := 10, top := 10, width := 50, height := 5 }]

def c4pages : List PageLayer :=
  [{ pageIndex := 0, rect := { left := 0, top := 0, width := 100, height := 100 } },
   { pageIndex := 1, rect := { left := 0, top := 100, width := 100, height := 100 } }]

def c4rects : List ScreenRect :=
  [{ left := 10, top := 10, width := 20, height := 10 },
   { left := 10, top := 110, width := 20, height := 10 }]

def c6page : PageLayer :=
  { pageIndex := 0, rect := { left := 0, top := 0, width := 100, height := 100 } }

def c6rect : ScreenRect := { left := -50, top := 10, width := 200, height := 10 }

def c6wpage : PageLayer :=
  { pageIndex := 0, rect := { left := 0, top := 0, width := 200, height := 1000 } }

def c6wrects : List ScreenRect := [{ left := 10, top := 10, width := 50, height := 5 }]

def c8snap : SelectionSnapshot :=
  { isCollapsed := false, anchorInTextLayer := true, text := "abc",
    clientRects := [{ left := 0, top := 0, width := 0, height := 5 }] }

def c8s : ViewState :=
  { annotations := [], history := [], canUndo := false, activeAnnotationId := none,
    noteDraft := "", popupPosition := none }

def c9old : PdfRecord :=
  { id := "d1", originalName := "f.pdf", filename := "file-1.pdf",
    path := "/files/file-1.pdf", title := "t", author := "", journal := "",
    annotations := [], createdAt := "2024-01-01" }

def c9ann : Annotation :=
  { id := "a", type := .highlight, pageIndex := 0, rects := [], note := some "n" }

def c9body : PutBody :=
  { title := none, author := some "au", journal := none, annotations := some [c9ann] }

/-! ### Basic lemmas about the store and history -/

/-- The object-spread deep copy is the identity on the immutable model. -/
theorem cloneAnnotations_eq (l : List Annotation) : cloneAnnotations l = l := by
  unfold cloneAnnotations
  have h1 : ∀ r : Rect,
      ({ x := r.x, y := r.y, width := r.width, height := r.height } : Rect) = r :=
    fun r => rfl
  simp only [h1, List.map_id']

theorem pushedHistory_def (h : List (List Annotation)) (a : List Annotation) :
    pushedHistory h a = if HISTORY_LIMIT < h.length + 1 then (a :: h).dropLast else a :: h := by
  simp [pushedHistory, cloneAnnotations_eq]

theorem pushedHistory_eq_take (h : List (List Annotation)) (a : List Annotation)
    (hle : h.length ≤ 50) : pushedHistory h a = (a :: h).take 50 := by
  rw [pushedHistory_def]
  rcases Nat.lt_or_ge h.length 50 with hlt | hge
  · rw [if_neg (by simp [HISTORY_LIMIT]; omega)]
    exact (List.take_of_length_le (by simp; omega)).symm
  · have h50 : h.length = 50 := le_antisymm hle hge
    rw [if_pos (by simp [HISTORY_LIMIT]; omega)]
    rw [List.dropLast_eq_take, List.take_cons (by simp [h50])]
    simp [h50]

theorem pushedHistory_head (h : List (List Annotation)) (a : List Annotation) :
    (pushedHistory h a).head? = some a := by
  rw [pushedHistory_def]
  split
  · rename_i hlt
    match h with
    | [] => simp [HISTORY_LIMIT] at hlt
    | b :: t => simp [List.dropLast]
  · simp

theorem pushedHistory_ne_nil (h : List (List Annotation)) (a : List Annotation) :
    pushedHistory h a ≠ [] := by
  intro he
  have := pushedHistory_head h a
  rw [he] at this
  simp at this

theorem pushedHistory_pos (h : List (List Annotation)) (a : List Annotation) :
    0 < (pushedHistory h a).length := by
  cases hh : pushedHistory h a with
  | nil => exact absurd hh (pushedHistory_ne_nil h a)
  | cons x t => simp

theorem pushedHistory_length_le (h : List (List Annotation)) (a : List Annotation)
    (hle : h.length ≤ 50) : (pushedHistory h a).length ≤ 50 := by
  rw [pushedHistory_eq_take h a hle]
  simp [List.length_take]

theorem pushHistorySnapshot_canUndo (s : ViewState) (a : List Annotation) :
    (pushHistorySnapshot s a).canUndo = true := by
  simp [pushHistorySnapshot, pushedHistory_pos]

theorem handleUndo_nil (s : ViewState) (h : s.history = []) : handleUndo s = s := by
  unfold handleUndo
  rw [h]

theorem handleUndo_cons (s : ViewState) (x : List Annotation) (t : List (List Annotation))
    (h : s.history = x :: t) :
    (handleUndo s).annotations = x ∧ (handleUndo s).history = t ∧
    (handleUndo s).canUndo = decide (0 < t.length) := by
  unfold handleUndo
  rw [h]
  simp [closeAnnotationPopup]

/-- A non-empty append changes a list. -/
theorem append_ne_self (l n : List Annotation) (hn : n ≠ []) : l ++ n ≠ l := by
  intro he
  have hlen := congrArg List.length he
  simp at hlen
  exact hn hlen

/-- Rewriting the note of the first annotation matching `aid` to a
different value changes the list. -/
theorem map_note_ne (l : List Annotation) (aid : String) (v : Option String)
    (target : Annotation)
    (hf : l.find? (fun a => decide (a.id = aid)) = some target)
    (hne : target.note ≠ v) :
    l.map (fun a => if a.id = aid then { a with note := v } else a) ≠ l := by
  induction l with
  | nil => simp at hf
  | cons b t ih =>
    by_cases hb : b.id = aid
    · rw [List.find?_cons_of_pos _ (by simp [hb])] at hf
      have hbt : b = target := by injection hf
      subst hbt
      simp only [List.map_cons, if_pos hb]
      intro he
      have hhead : ({ b with note := v } : Annotation) = b := (List.cons.injEq _ _ _ _ ▸ he).1
      have : v = b.note := congrArg Annotation.note hhead
      exact hne this.symm
    · rw [List.find?_cons_of_neg _ (by simp [hb])] at hf
      simp only [List.map_cons, if_neg hb]
      intro he
      exact ih hf (List.cons.injEq _ _ _ _ ▸ he).2

/-- Filtering out a present id changes the list. -/
theorem filter_del_ne (l : List Annotation) (aid : String)
    (hany : l.any (fun a => decide (a.id = aid)) = true) :
    l.filter (fun a => !decide (a.id = aid)) ≠ l := by
  intro he
  have hlen := congrArg List.length he
  obtain ⟨a, ha, hid⟩ := List.any_eq_true.mp hany
  have hlt : (l.filter (fun a => !decide (a.id = aid))).length < l.length := by
    apply List.length_filter_lt_length_iff_exists.mpr
    exact ⟨a, ha, by simpa using of_decide_eq_true hid⟩
  omega

/-- `handleSaveNote` is a no-op when the active annotation is gone. -/
theorem handleSaveNote_nofind (s : ViewState) (aid : String)
    (h : s.activeAnnotationId = some aid)
    (hf : s.annotations.find? (fun a => decide (a.id = aid)) = none) :
    handleSaveNote s = s := by
  unfold handleSaveNote
  simp only [h, hf]

/-- Unfolding of `handleSaveNote` when the active annotation exists. -/
theorem handleSaveNote_found (s : ViewState) (aid : String) (target : Annotation)
    (h : s.activeAnnotationId = some aid)
    (hf : s.annotations.find? (fun a => decide (a.id = aid)) = some target) :
    handleSaveNote s =
      if target.note = trimmedNoteOf s.noteDraft then closeAnnotationPopup s
      else
        closeAnnotationPopup
          { pushHistorySnapshot s s.annotations with
            annotations := s.annotations.map (fun a =>
              if a.id = aid then { a with note := trimmedNoteOf s.noteDraft } else a) } := by
  unfold handleSaveNote
  simp only [h, hf]

/-- Unfolding of `handleDeleteAnnotation` with a known active id. -/
theorem handleDeleteAnnotation_eq (s : ViewState) (aid : String)
    (h : s.activeAnnotationId = some aid) :
    handleDeleteAnnotation s =
      if s.annotations.any (fun a => decide (a.id = aid)) then
        closeAnnotationPopup
          { pushHistorySnapshot s s.annotations with
            annotations := s.annotations.filter (fun a => !decide (a.id = aid)) }
      else closeAnnotationPopup s := by
  unfold handleDeleteAnnotation
  simp only [h]

/-- `persistSelectionGo` either returns the state unchanged (one of the
guard branches) or appends the non-empty mapping result after pushing
one snapshot. -/
theorem persistSelectionGo_cases (ty : AnnType) (sel : Option SelectionSnapshot)
    (pages : List PageLayer) (mkId : ℕ → String) (s : ViewState) :
    persistSelectionGo ty sel pages mkId s = s ∨
    (mapSelectionToAnnotations mkId ty ((Option.map SelectionSnapshot.clientRects sel).getD []) pages ≠ [] ∧
     persistSelectionGo ty sel pages mkId s =
       { pushHistorySnapshot s s.annotations with
         annotations := s.annotations ++
           mapSelectionToAnnotations mkId ty ((Option.map SelectionSnapshot.clientRects sel).getD []) pages }) := by
  unfold persistSelectionGo
  match sel with
  | none => exact Or.inl rfl
  | some sel =>
    simp only [Option.map_some', Option.getD_some]
    split
    · exact Or.inl rfl
    split
    · exact Or.inl rfl
    split
    · exact Or.inl rfl
    split
    · exact Or.inl rfl
    split
    · exact Or.inl rfl
    split
    · rename_i hemp
      exact Or.inl rfl
    rename_i hne
    exact Or.inr ⟨by simpa using hne, rfl⟩

/-- Every mutation handler either leaves the store triple (collection,
history, canUndo) unchanged, or changes the collection and pushes
exactly one snapshot of the pre-mutation collection. -/
theorem applyMutation_core (m : Mutation) (s : ViewState) :
    ((applyMutation m s).annotations = s.annotations ∧
     (applyMutation m s).history = s.history ∧
     (applyMutation m s).canUndo = s.canUndo) ∨
    ((applyMutation m s).annotations ≠ s.annotations ∧
     (applyMutation m s).history = pushedHistory s.history s.annotations ∧
     (applyMutation m s).canUndo = true) := by
  cases m with
  | add mode sel pages mkId =>
    have hgo : ∀ ty : AnnType,
        ((persistSelectionGo ty sel pages mkId s).annotations = s.annotations ∧
         (persistSelectionGo ty sel pages mkId s).history = s.history ∧
         (persistSelectionGo ty sel pages mkId s).canUndo = s.canUndo) ∨
        ((persistSelectionGo ty sel pages mkId s).annotations ≠ s.annotations ∧
         (persistSelectionGo ty sel pages mkId s).history = pushedHistory s.history s.annotations ∧
         (persistSelectionGo ty sel pages mkId s).canUndo = true) := by
      intro ty
      rcases persistSelectionGo_cases ty sel pages mkId s with heq | ⟨hne, heq⟩
      · rw [heq]
        exact Or.inl ⟨rfl, rfl, rfl⟩
      · rw [heq]
        refine Or.inr ⟨append_ne_self _ _ hne, rfl, ?_⟩
        exact pushHistorySnapshot_canUndo s s.annotations
    show ((persistSelection mode sel pages mkId s).annotations = _ ∧ _ ∧ _) ∨
         ((persistSelection mode sel pages mkId s).annotations ≠ _ ∧ _ ∧ _)
    cases mode with
    | cursor => exact Or.inl ⟨rfl, rfl, rfl⟩
    | highlight => exact hgo .highlight
    | underline => exact hgo .underline
  | setNote aid draft =>
    have happly : applyMutation (Mutation.setNote aid draft) s =
        handleSaveNote { s with activeAnnotationId := some aid, noteDraft := draft } := rfl
    rw [happly]
    cases hf : (List.find? (fun a => decide (a.id = aid)) s.annotations) with
    | none =>
      rw [handleSaveNote_nofind
            { s with activeAnnotationId := some aid, noteDraft := draft } aid rfl hf]
      exact Or.inl ⟨rfl, rfl, rfl⟩
    | some target =>
      rw [handleSaveNote_found
            { s with activeAnnotationId := some aid, noteDraft := draft } aid target rfl hf]
      split
      · exact Or.inl ⟨rfl, rfl, rfl⟩
      · rename_i hne
        exact Or.inr ⟨map_note_ne _ _ _ _ hf hne, rfl, pushHistorySnapshot_canUndo _ _⟩
  | del aid =>
    have happly : applyMutation (Mutation.del aid) s =
        handleDeleteAnnotation { s with activeAnnotationId := some aid } := rfl
    rw [happly, handleDeleteAnnotation_eq { s with activeAnnotationId := some aid } aid rfl]
    split
    · rename_i hany
      exact Or.inr ⟨filter_del_ne _ _ hany, rfl, pushHistorySnapshot_canUndo _ _⟩
    · exact Or.inl ⟨rfl, rfl, rfl⟩

/-! ### Run lemmas for the history/undo claims -/

theorem applyMutations_append (l₁ l₂ : List Mutation) (s : ViewState) :
    applyMutations (l₁ ++ l₂) s = applyMutations l₂ (applyMutations l₁ s) := by
  induction l₁ generalizing s with
  | nil => rfl
  | cons m rest ih => simp [applyMutations, ih]

theorem effectiveRun_append (l₁ l₂ : List Mutation) (s : ViewState)
    (h : EffectiveRun s (l₁ ++ l₂)) : EffectiveRun (applyMutations l₁ s) l₂ := by
  induction l₁ generalizing s with
  | nil => exact h
  | cons m rest ih => exact ih _ h.2

theorem preStates_length (s : ViewState) (ms : List Mutation) :
    (preStates s ms).length = ms.length := by
  induction ms generalizing s with
  | nil => rfl
  | cons m rest ih => simp [preStates, ih]

theorem take_append_take (x y : List α) (n : ℕ) :
    (x ++ y.take n).take n = (x ++ y).take n := by
  rw [List.take_append_eq_append_take, List.take_append_eq_append_take, List.take_take]
  have : min (n - x.length) n = n - x.length := min_eq_left (Nat.sub_le n _)
  rw [this]

/-- After an effective run from a legal state, the history holds the
pre-mutation snapshots, newest first, truncated to the 50 most recent
(counting any prior history below them). -/
theorem run_history (ms : List Mutation) : ∀ s : ViewState, EffectiveRun s ms →
    s.history.length ≤ 50 →
    (applyMutations ms s).history = ((preStates s ms).reverse ++ s.history).take 50 := by
  induction ms with
  | nil =>
    intro s _ hle
    simpa [applyMutations, preStates] using (List.take_of_length_le hle).symm
  | cons m rest ih =>
    intro s heff hle
    rcases applyMutation_core m s with ⟨hann, _, _⟩ | ⟨_, hhist, _⟩
    · exact absurd hann heff.1
    · have hpush : (applyMutation m s).history = (s.annotations :: s.history).take 50 := by
        rw [hhist, pushedHistory_eq_take _ _ hle]
      have hle' : (applyMutation m s).history.length ≤ 50 := by
        rw [hpush]
        simp [List.length_take]
      have hrun := ih (applyMutation m s) heff.2 hle'
      show (applyMutations rest (applyMutation m s)).history = _
      rw [hrun, hpush]
      rw [take_append_take]
      simp [preStates, List.reverse_cons, List.append_assoc]

/-- Undoing as many times as there are stacked snapshots replays them
down to the oldest one and empties the history. -/
theorem undo_iterate (t : List (List Annotation)) : ∀ (b : List Annotation) (s : ViewState),
    s.history = t ++ [b] →
    (handleUndo^[t.length + 1] s).annotations = b ∧
    (handleUndo^[t.length + 1] s).history = [] := by
  induction t with
  | nil =>
    intro b s h
    have := handleUndo_cons s b [] h
    simpa [Function.iterate_one] using ⟨this.1, this.2.1⟩
  | cons x t' ih =>
    intro b s h
    have hstep := handleUndo_cons s x (t' ++ [b]) (by simpa using h)
    have := ih b (handleUndo s) hstep.2.1
    constructor
    · rw [show (x :: t').length + 1 = (t'.length + 1) + 1 by simp,
          Function.iterate_succ_apply]
      exact (ih b (handleUndo s) hstep.2.1).1
    · rw [show (x :: t').length + 1 = (t'.length + 1) + 1 by simp,
          Function.iterate_succ_apply]
      exact (ih b (handleUndo s) hstep.2.1).2

theorem applyOp_history_le (o : Op) (s : ViewState) (h : s.history.length ≤ 50) :
    (applyOp o s).history.length ≤ 50 := by
  cases o with
  | mutOp m =>
    rcases applyMutation_core m s with ⟨_, hh, _⟩ | ⟨_, hh, _⟩
    · show (applyMutation m s).history.length ≤ 50
      rw [hh]; exact h
    · show (applyMutation m s).history.length ≤ 50
      rw [hh]; exact pushedHistory_length_le _ _ h
  | undo =>
    cases hh : s.history with
    | nil => rw [show applyOp Op.undo s = handleUndo s from rfl, handleUndo_nil s hh]; exact h
    | cons x t =>
      have := handleUndo_cons s x t hh
      show (handleUndo s).history.length ≤ 50
      rw [this.2.1]
      have : (x :: t).length ≤ 50 := hh ▸ h
      simp at this
      omega

theorem applyOps_history_le (ops : List Op) : ∀ s : ViewState, s.history.length ≤ 50 →
    (applyOps ops s).history.length ≤ 50 := by
  induction ops with
  | nil => intro s h; exact h
  | cons o rest ih => intro s h; exact ih _ (applyOp_history_le o s h)

theorem applyOp_canUndo (o : Op) (s : ViewState)
    (h : s.canUndo = true ↔ s.history ≠ []) :
    (applyOp o s).canUndo = true ↔ (applyOp o s).history ≠ [] := by
  cases o with
  | mutOp m =>
    rcases applyMutation_core m s with ⟨_, hh, hc⟩ | ⟨_, hh, hc⟩
    · show (applyMutation m s).canUndo = true ↔ (applyMutation m s).history ≠ []
      rw [hh, hc]; exact h
    · show (applyMutation m s).canUndo = true ↔ (applyMutation m s).history ≠ []
      rw [hh, hc]
      simp [pushedHistory_ne_nil]
  | undo =>
    cases hh : s.history with
    | nil =>
      rw [show applyOp Op.undo s = handleUndo s from rfl, handleUndo_nil s hh]
      exact h
    | cons x t =>
      have hc := handleUndo_cons s x t hh
      show (handleUndo s).canUndo = true ↔ (handleUndo s).history ≠ []
      rw [hc.2.1, hc.2.2]
      simp [List.length_pos]

theorem applyOps_canUndo (ops : List Op) : ∀ s : ViewState,
    (s.canUndo = true ↔ s.history ≠ []) →
    ((applyOps ops s).canUndo = true ↔ (applyOps ops s).history ≠ []) := by
  induction ops with
  | nil => intro s h; exact h
  | cons o rest ih => intro s h; exact ih _ (applyOp_canUndo o s h)

/-! ### Geometry mapper lemmas -/

/-- If every element of `l` satisfying `p` equals `a`, and `a` is a
member satisfying `p`, then `find?` returns `a`. -/
theorem find?_unique {α : Type} (l : List α) (p : α → Bool) (a : α)
    (huniq : ∀ q ∈ l, p q = true → q = a) (hmem : a ∈ l) (hp : p a = true) :
    l.find? p = some a := by
  induction l with
  | nil => simp at hmem
  | cons b t ih =>
    by_cases hb : p b = true
    · rw [List.find?_cons_of_pos _ hb]
      exact congrArg some (huniq b (by simp) hb)
    · rw [List.find?_cons_of_neg _ hb]
      rcases List.mem_cons.mp hmem with hba | hat
      · exact absurd (hba ▸ hp) hb
      · exact ih (fun q hq => huniq q (List.mem_cons_of_mem b hq)) hat

theorem le_maxPageIndex (pages : List PageLayer) (p : PageLayer) (hp : p ∈ pages) :
    p.pageIndex ≤ maxPageIndex pages := by
  unfold maxPageIndex
  induction pages with
  | nil => simp at hp
  | cons q t ih =>
    rcases List.mem_cons.mp hp with hq | ht
    · subst hq; simp [List.foldr_cons, le_max_iff]
    · simp only [List.map_cons, List.foldr_cons, le_max_iff]
      exact Or.inr (ih ht)

theorem assignRect_eq_some (pages : List PageLayer) (k : ℕ) (r : ScreenRect)
    (p : PageLayer) (h : targetPageFor pages r = some p) :
    assignRect pages k r = if p.pageIndex = k then some (toRelative p r) else none := by
  unfold assignRect
  rw [h]

theorem assignRect_eq_none (pages : List PageLayer) (k : ℕ) (r : ScreenRect)
    (h : targetPageFor pages r = none) : assignRect pages k r = none := by
  unfold assignRect
  rw [h]

theorem targetPageFor_mem (pages : List PageLayer) (r : ScreenRect) (p : PageLayer)
    (h : targetPageFor pages r = some p) : p ∈ pages :=
  List.mem_of_find?_eq_some h

theorem targetPageFor_contains (pages : List PageLayer) (r : ScreenRect) (p : PageLayer)
    (h : targetPageFor pages r = some p) : containsCenter p r = true := by
  have h' : pages.find? (fun q => containsCenter q r) = some p := h
  have h2 := List.find?_some h'
  simpa using h2

/-- Membership in a group: every grouped rect is the conversion of an
input rect through its assigned page, whose index is the group key. -/
theorem mem_groupFor (pages : List PageLayer) (rects : List ScreenRect) (k : ℕ)
    (q : Rect) (hq : q ∈ groupFor pages rects k) :
    ∃ r ∈ rects, ∃ p, targetPageFor pages r = some p ∧ p.pageIndex = k ∧
      q = toRelative p r := by
  obtain ⟨r, hr, hf⟩ := List.mem_filterMap.mp hq
  refine ⟨r, hr, ?_⟩
  cases ht : targetPageFor pages r with
  | none => rw [assignRect_eq_none pages k r ht] at hf; simp at hf
  | some p =>
    rw [assignRect_eq_some pages k r p ht] at hf
    by_cases hk : p.pageIndex = k
    · rw [if_pos hk] at hf
      exact ⟨p, rfl, hk, (Option.some_inj.mp hf).symm⟩
    · rw [if_neg hk] at hf; simp at hf

/-- A group is non-empty exactly when some input rect is assigned to a
page with that index. -/
theorem groupFor_ne_nil_iff (pages : List PageLayer) (rects : List ScreenRect) (k : ℕ) :
    groupFor pages rects k ≠ [] ↔
      ∃ r ∈ rects, ∃ p, targetPageFor pages r = some p ∧ p.pageIndex = k := by
  constructor
  · intro hne
    cases hg : groupFor pages rects k with
    | nil => exact absurd hg hne
    | cons q t =>
      obtain ⟨r, hr, p, hp, hk, _⟩ :=
        mem_groupFor pages rects k q (by rw [hg]; simp)
      exact ⟨r, hr, p, hp, hk⟩
  · rintro ⟨r, hr, p, hp, hk⟩
    intro hnil
    have : toRelative p r ∈ groupFor pages rects k := by
      apply List.mem_filterMap.mpr
      exact ⟨r, hr, by rw [assignRect_eq_some pages k r p hp, if_pos hk]⟩
    rw [hnil] at this
    simp at this

/-- When every input rect is assigned to the same page layer `P`, the
group of `P.pageIndex` is the in-order conversion of all input rects and
every other group is empty. -/
theorem groupFor_all_assigned (pages : List PageLayer) (rects : List ScreenRect)
    (P : PageLayer) (hall : ∀ r ∈ rects, targetPageFor pages r = some P) :
    groupFor pages rects P.pageIndex = rects.map (toRelative P) ∧
    ∀ k, k ≠ P.pageIndex → groupFor pages rects k = [] := by
  constructor
  · unfold groupFor
    induction rects with
    | nil => rfl
    | cons r t ih =>
      rw [List.filterMap_cons,
          assignRect_eq_some pages P.pageIndex r P (hall r (by simp)), if_pos rfl]
      rw [ih (fun r hr => hall r (List.mem_cons_of_mem _ hr))]
      rfl
  · intro k hk
    unfold groupFor
    induction rects with
    | nil => rfl
    | cons r t ih =>
      rw [List.filterMap_cons,
          assignRect_eq_some pages k r P (hall r (by simp)), if_neg (fun h => hk h.symm)]
      exact ih (fun r hr => hall r (List.mem_cons_of_mem _ hr))

/-- Filtering `range n` for a single value `c < n` yields `[c]`. -/
theorem range_filter_eq_singleton (n c : ℕ) (hc : c < n) :
    (List.range n).filter (fun k => decide (k = c)) = [c] := by
  induction n with
  | zero => omega
  | succ m ih =>
    rw [List.range_succ, List.filter_append]
    by_cases hm : c = m
    · subst hm
      have h1 : (List.range c).filter (fun k => decide (k = c)) = [] := by
        apply List.filter_eq_nil_iff.mpr
        intro a ha
        simp only [decide_eq_true_eq]
        exact Nat.ne_of_lt (List.mem_range.mp ha)
      rw [h1]
      simp
    · have hcm : c < m := by omega
      rw [ih hcm]
      have h2 : ([m].filter (fun k => decide (k = c))) = [] := by
        simp [Ne.symm hm]
      rw [h2, List.append_nil]

/-- The page indices of the mapper output are exactly the non-empty
group keys, in ascending order. -/
theorem mapSelection_pageIndices (mkId : ℕ → String) (ty : AnnType)
    (clientRects : List ScreenRect) (pages : List PageLayer) :
    (mapSelectionToAnnotations mkId ty clientRects pages).map Annotation.pageIndex =
      groupKeys pages (survivingRects clientRects) := by
  unfold mapSelectionToAnnotations
  rw [List.map_map]
  have : ( Annotation.pageIndex ∘ fun ik : ℕ × ℕ =>
      ({ id := mkId ik.1, type := ty, pageIndex := ik.2,
         rects := groupFor pages (survivingRects clientRects) ik.2, note := none } : Annotation)) =
      Prod.snd := rfl
  rw [this, List.enum_map_snd]

/-- Structure of each emitted annotation. -/
theorem mapSelection_mem (mkId : ℕ → String) (ty : AnnType)
    (clientRects : List ScreenRect) (pages : List PageLayer) (a : Annotation)
    (ha : a ∈ mapSelectionToAnnotations mkId ty clientRects pages) :
    a.pageIndex ∈ groupKeys pages (survivingRects clientRects) ∧
    a.type = ty ∧
    a.rects = groupFor pages (survivingRects clientRects) a.pageIndex ∧
    a.note = none := by
  unfold mapSelectionToAnnotations at ha
  obtain ⟨ik, hik, hae⟩ := List.mem_map.mp ha
  have hk : ik.2 ∈ groupKeys pages (survivingRects clientRects) := by
    have hmem : ik.2 ∈ (groupKeys pages (survivingRects clientRects)).enum.map Prod.snd :=
      List.mem_map.mpr ⟨ik, hik, rfl⟩
    rw [List.enum_map_snd] at hmem
    exact hmem
  subst hae
  exact ⟨hk, rfl, rfl, rfl⟩

/-- Keys are sorted strictly ascending (`Object.entries` enumeration of
integer-like keys). -/
theorem groupKeys_sorted (pages : List PageLayer) (rects : List ScreenRect) :
    List.Pairwise (· < ·) (groupKeys pages rects) := by
  unfold groupKeys
  exact (List.pairwise_lt_range _).filter _

/-- Key membership characterised via assignment. -/
theorem mem_groupKeys_iff (pages : List PageLayer) (rects : List ScreenRect) (k : ℕ) :
    k ∈ groupKeys pages rects ↔
      k < maxPageIndex pages + 1 ∧
      ∃ r ∈ rects, ∃ p, targetPageFor pages r = some p ∧ p.pageIndex = k := by
  unfold groupKeys
  rw [List.mem_filter, List.mem_range]
  rw [show ∀ b : List Rect, (!b.isEmpty) = true ↔ b ≠ [] from fun b => by
    cases b <;> simp]
  rw [groupFor_ne_nil_iff]

/-! ### Auxiliary lemmas about `jsTrim` -/

theorem dropWhile_head_not {α : Type} (p : α → Bool) (l : List α) :
    l.dropWhile p = [] ∨ ∃ hd tl, l.dropWhile p = hd :: tl ∧ p hd = false := by
  induction l with
  | nil => exact Or.inl rfl
  | cons a t ih =>
    rw [List.dropWhile_cons]
    by_cases hpa : p a = true
    · rw [if_pos hpa]; exact ih
    · rw [if_neg hpa]
      exact Or.inr ⟨a, t, rfl, by simpa using hpa⟩

/-- A non-empty trimmed string contains a non-whitespace character. -/
theorem jsTrim_any_not_ws (d : String) (h : jsTrim d ≠ "") :
    (jsTrim d).data.any (fun c => !c.isWhitespace) = true := by
  unfold jsTrim at *
  rcases dropWhile_head_not Char.isWhitespace
      ((d.data.dropWhile Char.isWhitespace).reverse) with hnil | ⟨hd, tl, heq, hp⟩
  · exact absurd (by rw [hnil]; rfl) h
  · rw [heq]
    apply List.any_eq_true.mpr
    exact ⟨hd, by simp, by simp [hp]⟩

/-! ### Claim C7 -/

/-- C7: deleting an annotation id that is not present in the collection
is a no-op — the collection, the history stack and `canUndo` are all
unchanged (only the popup closes). -/
theorem C7_delete_absent_noop (s : ViewState) (aid : String)
    (ha : s.activeAnnotationId = some aid)
    (habs : ∀ a ∈ s.annotations, a.id ≠ aid) :
    ( handleDeleteAnnotation s).annotations = s.annotations ∧
    ( handleDeleteAnnotation s).history = s.history ∧
    ( handleDeleteAnnotation s).canUndo = s.canUndo := by
  rw [handleDeleteAnnotation_eq s aid ha]
  have hany : s.annotations.any (fun a => decide (a.id = aid)) = false := by
    rw [List.any_eq_false]
    intro a haa
    simp [habs a haa]
  rw [hany]
  exact ⟨rfl, rfl, rfl⟩

/-- Witness for C7 at a concrete state whose collection does not contain
the active id. -/
theorem C7_witness :
    c7s.activeAnnotationId = some "zz" ∧ (∀ a ∈ c7s.annotations, a.id ≠ "zz") ∧
    ( handleDeleteAnnotation c7s).annotations = c7s.annotations ∧
    ( handleDeleteAnnotation c7s).history = c7s.history ∧
    ( handleDeleteAnnotation c7s).canUndo = c7s.canUndo :=
  ⟨rfl, by decide, C7_delete_absent_noop c7s "zz" rfl (by decide)⟩

/-! ### Claim C5 -/

/-- C5 (amended): `handleSaveNote` compares the trim-normalised draft
(trimmed, empty mapped to absent) with the stored note by equality.  On
equality nothing is pushed and the collection is unchanged; otherwise
exactly one snapshot of the pre-mutation collection is pushed and only
the active annotation's note is replaced, a trimmed-empty draft being
stored as absent; whenever a note is stored it is a non-empty string
containing a non-whitespace character. -/
theorem C5_saveNote_spec (s : ViewState) (aid : String) (target : Annotation)
    (ha : s.activeAnnotationId = some aid)
    (hf : s.annotations.find? (fun a => decide (a.id = aid)) = some target) :
    (target.note = trimmedNoteOf s.noteDraft →
      (handleSaveNote s).annotations = s.annotations ∧
      (handleSaveNote s).history = s.history ∧
      (handleSaveNote s).canUndo = s.canUndo) ∧
    (target.note ≠ trimmedNoteOf s.noteDraft →
      (handleSaveNote s).history = pushedHistory s.history s.annotations ∧
      (handleSaveNote s).annotations = s.annotations.map (fun a =>
        if a.id = aid then { a with note := trimmedNoteOf s.noteDraft } else a) ∧
      (handleSaveNote s).annotations ≠ s.annotations) ∧
    (jsTrim s.noteDraft = "" → trimmedNoteOf s.noteDraft = none) ∧
    (∀ t : String, trimmedNoteOf s.noteDraft = some t →
      t ≠ "" ∧ t.data.any (fun c => !c.isWhitespace) = true) := by
  rw [handleSaveNote_found s aid target ha hf]
  refine ⟨?_, ?_, ?_, ?_⟩
  · intro heq
    rw [if_pos heq]
    exact ⟨rfl, rfl, rfl⟩
  · intro hne
    rw [if_neg hne]
    exact ⟨rfl, rfl, map_note_ne _ _ _ _ hf hne⟩
  · intro he
    unfold trimmedNoteOf
    rw [if_pos he]
  · intro t ht
    unfold trimmedNoteOf at ht
    by_cases he : jsTrim s.noteDraft = ""
    · rw [if_pos he] at ht; exact absurd ht (by simp)
    · rw [if_neg he] at ht
      have : t = jsTrim s.noteDraft := (Option.some_inj.mp ht).symm
      subst this
      exact ⟨he, jsTrim_any_not_ws _ he⟩

/-- Counterexample to C5 as stated: the stored note `" "` is blank
(semantically identical to an absent note) and so is the trimmed draft
`" "`, yet the commit is not a no-op — it pushes a snapshot and rewrites
the collection, because the code compares with `===` after normalising
only the draft. -/
theorem C5_counterexample :
    jsTrim c5s.noteDraft = "" ∧
    (∃ a ∈ c5s.annotations, a.note = some " ") ∧
    (handleSaveNote c5s).history ≠ c5s.history ∧
    (handleSaveNote c5s).annotations ≠ c5s.annotations := by decide

/-- Witness for C5 at a concrete state: the draft differs from the
stored note, so one snapshot is pushed and the trimmed note stored. -/
theorem C5_witness :
    c5ws.activeAnnotationId = some "a" ∧
    c5ws.annotations.find? (fun a => decide (a.id = "a")) = some c5wTarget ∧
    (c5wTarget.note ≠ trimmedNoteOf c5ws.noteDraft ∧
      (handleSaveNote c5ws).history = pushedHistory c5ws.history c5ws.annotations ∧
      (handleSaveNote c5ws).annotations =
        [{ id := "a", type := .highlight, pageIndex := 0, rects := [], note := some "hello" }]) := by
  have h := C5_saveNote_spec c5ws "a" c5wTarget rfl (by decide)
  have hne : c5wTarget.note ≠ trimmedNoteOf c5ws.noteDraft := by decide
  have h2 := h.2.1 hne
  refine ⟨rfl, by decide, hne, h2.1, ?_⟩
  rw [h2.2.1]
  decide

/-! ### Claim C2 -/

/-- Counterexample to C2 as stated: two delete mutations of the same id
(the second a no-op, which pushes no snapshot) — a single Undo does NOT
restore the state immediately before the second mutation. -/
theorem C2_counterexample :
    c2s.history = [] ∧ c2s.canUndo = false ∧ c2ms.length = 2 ∧ c2ms.length ≤ 50 ∧
    (handleUndo (applyMutations c2ms c2s)).annotations ≠
      (applyMutations c2ms.dropLast c2s).annotations := by decide

/-- C2 (amended): for every sequence of K state-changing mutations
applied from an initial collection with empty history, one Undo restores
the collection to its state immediately before the K-th mutation, K
Undos (K ≤ 50) restore the initial collection, Undo on an empty history
is the identity, and after every operation `canUndo` holds exactly when
the history stack is non-empty. -/
theorem C2_undo_spec (s0 : ViewState) (ms : List Mutation) (ops : List Op)
    (h0 : s0.history = []) (hc : s0.canUndo = false)
    (heff : EffectiveRun s0 ms) (hK : ms.length ≤ 50) :
    (ms ≠ [] →
      (handleUndo (applyMutations ms s0)).annotations =
        (applyMutations ms.dropLast s0).annotations) ∧
    (handleUndo^[ms.length] (applyMutations ms s0)).annotations = s0.annotations ∧
    (∀ s : ViewState, s.history = [] → handleUndo s = s) ∧
    ((applyOps ops s0).canUndo = true ↔ (applyOps ops s0).history ≠ []) := by
  refine ⟨?_, ?_, fun s hs => handleUndo_nil s hs, ?_⟩
  · intro hne
    obtain ⟨ms', m, rfl⟩ : ∃ ms' m, ms = ms' ++ [m] := by
      rcases List.eq_nil_or_concat ms with h | ⟨L, b, h⟩
      · exact absurd h hne
      · exact ⟨L, b, by simpa [List.concat_eq_append] using h⟩
    rw [applyMutations_append, List.dropLast_concat]
    have heff' : EffectiveRun (applyMutations ms' s0) [m] :=
      effectiveRun_append ms' [m] s0 heff
    rcases applyMutation_core m (applyMutations ms' s0) with ⟨hann, _, _⟩ | ⟨_, hh, _⟩
    · exact absurd hann heff'.1
    · have h1 : applyMutations [m] (applyMutations ms' s0) =
          applyMutation m (applyMutations ms' s0) := rfl
      rw [h1]
      have hhead : (applyMutation m (applyMutations ms' s0)).history.head? =
          some (applyMutations ms' s0).annotations := by
        rw [hh]; exact pushedHistory_head _ _
      cases hhist : (applyMutation m (applyMutations ms' s0)).history with
      | nil => rw [hhist] at hhead; simp at hhead
      | cons x t =>
        rw [hhist] at hhead
        have hx : x = (applyMutations ms' s0).annotations := by simpa using hhead
        have hu := handleUndo_cons (applyMutation m (applyMutations ms' s0)) x t hhist
        rw [hu.1, hx]
  · cases ms with
    | nil => rfl
    | cons m rest =>
      have hrun := run_history (m :: rest) s0 heff (by rw [h0]; simp)
      rw [h0, List.append_nil] at hrun
      have htake : (preStates s0 (m :: rest)).reverse.take 50 =
          (preStates s0 (m :: rest)).reverse :=
        List.take_of_length_le (by rw [List.length_reverse, preStates_length]; exact hK)
      rw [htake] at hrun
      have hpre : preStates s0 (m :: rest) =
          s0.annotations :: preStates (applyMutation m s0) rest := rfl
      rw [hpre, List.reverse_cons] at hrun
      have hiter := undo_iterate ((preStates (applyMutation m s0) rest).reverse)
        s0.annotations (applyMutations (m :: rest) s0) hrun
      have hcount : (m :: rest).length =
          (preStates (applyMutation m s0) rest).reverse.length + 1 := by
        simp [List.length_reverse, preStates_length]
      rw [hcount]
      exact hiter.1
  · exact applyOps_canUndo ops s0 (by rw [h0, hc]; simp)

/-- Witness for (amended) C2: a concrete effective two-mutation run. -/
theorem C2_witness :
    EffectiveRun c2ws c2wms ∧ c2wms.length ≤ 50 ∧
    ((c2wms ≠ [] →
      (handleUndo (applyMutations c2wms c2ws)).annotations =
        (applyMutations c2wms.dropLast c2ws).annotations) ∧
     (handleUndo^[c2wms.length] (applyMutations c2wms c2ws)).annotations = c2ws.annotations ∧
     (∀ s : ViewState, s.history = [] → handleUndo s = s) ∧
     ((applyOps [] c2ws).canUndo = true ↔ (applyOps [] c2ws).history ≠ [])) :=
  ⟨by decide, by decide, C2_undo_spec c2ws c2wms [] rfl rfl (by decide) (by decide)⟩

/-! ### Claim C3 -/

/-- C3: the history stack never exceeds 50 snapshots; an effective run
of 60 mutations leaves exactly the snapshots of the 50 most recent
pre-mutation states (newest first) on the stack, so the oldest 10
pre-states are no longer recoverable while the 50 most recent are. -/
theorem C3_history_bound (s0 : ViewState) (ops : List Op) (ms : List Mutation)
    (h0 : s0.history = []) (heff : EffectiveRun s0 ms) (h60 : ms.length = 60) :
    (applyOps ops s0).history.length ≤ 50 ∧
    (applyMutations ms s0).history = (preStates s0 ms).reverse.take 50 ∧
    (applyMutations ms s0).history.length = 50 ∧
    ((preStates s0 ms).Nodup →
      ∀ snap ∈ (preStates s0 ms).take 10, snap ∉ (applyMutations ms s0).history) ∧
    (∀ snap ∈ (preStates s0 ms).drop 10, snap ∈ (applyMutations ms s0).history) := by
  have hb : s0.history.length ≤ 50 := by rw [h0]; simp
  have hrun := run_history ms s0 heff hb
  rw [h0, List.append_nil] at hrun
  have hlen : (preStates s0 ms).length = 60 := by rw [preStates_length]; exact h60
  have hrev : (preStates s0 ms).reverse.take 50 = ((preStates s0 ms).drop 10).reverse := by
    have hsplit : (preStates s0 ms).reverse =
        ((preStates s0 ms).drop 10).reverse ++ ((preStates s0 ms).take 10).reverse := by
      rw [← List.reverse_append, List.take_append_drop]
    rw [hsplit]
    exact List.take_left' (by rw [List.length_reverse, List.length_drop, hlen])
  refine ⟨applyOps_history_le ops s0 hb, hrun, ?_, ?_, ?_⟩
  · rw [hrun]
    simp [List.length_take, List.length_reverse, hlen]
  · intro hnodup snap hsnap
    have hsplitn : ((preStates s0 ms).take 10 ++ (preStates s0 ms).drop 10).Nodup := by
      rw [List.take_append_drop]; exact hnodup
    have hdisj := (List.nodup_append.mp hsplitn).2.2
    intro hmem
    rw [hrun, hrev, List.mem_reverse] at hmem
    exact hdisj hsnap hmem
  · intro snap hsnap
    rw [hrun, hrev, List.mem_reverse]
    exact hsnap

theorem xs_ne_empty (n : ℕ) (hn : 0 < n) : xs n ≠ "" := by
  intro h
  have : (List.replicate n ('x')).length = 0 := by
    have hd := congrArg String.data h
    simp only [xs] at hd
    rw [hd]
    rfl
  simp at this
  omega

theorem jsTrim_xs (n : ℕ) : jsTrim (xs n) = xs n := by
  cases n with
  | zero => rfl
  | succ m =>
    unfold jsTrim xs
    have hx : ('x').isWhitespace = false := rfl
    rw [List.replicate_succ, List.dropWhile_cons, hx]
    simp only [Bool.false_eq_true, if_false]
    rw [← List.replicate_succ, List.reverse_replicate]
    rw [show List.replicate (m + 1) ('x') = ('x') :: List.replicate m ('x') from List.replicate_succ ..]
    rw [List.dropWhile_cons, hx]
    simp only [Bool.false_eq_true, if_false]
    rw [← List.replicate_succ, List.reverse_replicate]

theorem trimmedNoteOf_xs (n : ℕ) (hn : 0 < n) : trimmedNoteOf (xs n) = some (xs n) := by
  unfold trimmedNoteOf
  rw [jsTrim_xs, if_neg (xs_ne_empty n hn)]

theorem xs_inj (m n : ℕ) (h : xs m = xs n) : m = n := by
  have hd := congrArg String.data h
  simp only [xs] at hd
  have := congrArg List.length hd
  simpa using this

theorem c3ann_inj (m n : ℕ) (h : c3ann m = c3ann n) : m = n := by
  have hn := congrArg Annotation.note h
  simp only [c3ann] at hn
  by_cases hm0 : m = 0
  · subst hm0
    rw [if_pos rfl] at hn
    by_cases hn0 : n = 0
    · omega
    · rw [if_neg hn0] at hn; simp at hn
  · rw [if_neg hm0] at hn
    by_cases hn0 : n = 0
    · rw [if_pos hn0] at hn; simp at hn
    · rw [if_neg hn0] at hn
      exact xs_inj m n (Option.some_inj.mp hn)

/-- One step of the C3 witness run: committing the draft `xs (i+1)` on
the annotation `c3ann i` rewrites it to `c3ann (i+1)`. -/
theorem c3_step (i : ℕ) (s : ViewState) (hs : s.annotations = [c3ann i]) :
    (applyMutation (Mutation.setNote ("a") (xs (i + 1))) s).annotations = [c3ann (i + 1)] := by
  have hfind : ({ s with activeAnnotationId := some "a", noteDraft := xs (i + 1) } :
        ViewState).annotations.find?
        (fun a => decide (a.id = "a")) = some (c3ann i) := by
    show s.annotations.find? (fun a => decide (a.id = "a")) = some (c3ann i)
    rw [hs]
    rw [List.find?_cons_of_pos _ (by simp [c3ann])]
  have happly : applyMutation (Mutation.setNote ("a") (xs (i + 1))) s =
      handleSaveNote { s with activeAnnotationId := some "a", noteDraft := xs (i + 1) } := rfl
  have htrim : trimmedNoteOf (xs (i + 1)) = some (xs (i + 1)) :=
    trimmedNoteOf_xs (i + 1) (by omega)
  have hne : (c3ann i).note ≠ trimmedNoteOf (xs (i + 1)) := by
    rw [htrim]
    simp only [c3ann]
    by_cases hi0 : i = 0
    · rw [if_pos hi0]; simp
    · rw [if_neg hi0]
      intro hcon
      have := xs_inj i (i + 1) (Option.some_inj.mp hcon)
      omega
  rw [happly, handleSaveNote_found _ "a" (c3ann i) rfl hfind, if_neg hne]
  show (s.annotations.map _) = _
  rw [hs, List.map_cons, List.map_nil]
  have hid : (c3ann i).id = "a" := rfl
  rw [if_pos hid]
  have : ({ c3ann i with note := trimmedNoteOf (xs (i + 1)) } : Annotation) = c3ann (i + 1) := by
    rw [htrim]
    simp [c3ann]
  rw [this]

/-- The C3 witness run is effective and its pre-states are the states
`[c3ann i], [c3ann (i+1)], …` in order. -/
theorem c3_aux (k : ℕ) : ∀ (i : ℕ) (s : ViewState), s.annotations = [c3ann i] →
    EffectiveRun s ((List.range' (i + 1) k).map (fun j => Mutation.setNote ("a") (xs j))) ∧
    preStates s ((List.range' (i + 1) k).map (fun j => Mutation.setNote ("a") (xs j))) =
      (List.range' i k).map (fun j => [c3ann j]) := by
  induction k with
  | zero => intro i s hs; exact ⟨trivial, rfl⟩
  | succ m ih =>
    intro i s hs
    have hrange : List.range' (i + 1) (m + 1) = (i + 1) :: List.range' (i + 2) m := rfl
    have hrange2 : List.range' i (m + 1) = i :: List.range' (i + 1) m := rfl
    rw [hrange, hrange2, List.map_cons, List.map_cons]
    have hstep := c3_step i s hs
    have hne : (applyMutation (Mutation.setNote ("a") (xs (i + 1))) s).annotations ≠
        s.annotations := by
      rw [hstep, hs]
      intro hcon
      have h1 : c3ann (i + 1) = c3ann i := (List.cons.injEq _ _ _ _ ▸ hcon).1
      have := c3ann_inj (i + 1) i h1
      omega
    have hih := ih (i + 1) (applyMutation (Mutation.setNote ("a") (xs (i + 1))) s) hstep
    refine ⟨⟨hne, hih.1⟩, ?_⟩
    show s.annotations :: _ = _
    rw [hs, hih.2]

/-- Witness for C3: a concrete effective 60-mutation run with pairwise
distinct pre-states. -/
theorem C3_witness :
    EffectiveRun c3ws c3wms ∧ c3wms.length = 60 ∧ (preStates c3ws c3wms).Nodup ∧
    ((applyOps [] c3ws).history.length ≤ 50 ∧
     (applyMutations c3wms c3ws).history = (preStates c3ws c3wms).reverse.take 50 ∧
     (applyMutations c3wms c3ws).history.length = 50 ∧
     ((preStates c3ws c3wms).Nodup →
       ∀ snap ∈ (preStates c3ws c3wms).take 10, snap ∉ (applyMutations c3wms c3ws).history) ∧
     (∀ snap ∈ (preStates c3ws c3wms).drop 10, snap ∈ (applyMutations c3wms c3ws).history)) := by
  have haux := c3_aux 60 0 c3ws rfl
  have hlen : c3wms.length = 60 := by simp [c3wms]
  have hn : (preStates c3ws c3wms).Nodup := by
    show (preStates c3ws ((List.range' (0 + 1) 60).map (fun j => Mutation.setNote ("a") (xs j)))).Nodup
    rw [haux.2]
    apply List.Nodup.map
    · intro a b hab
      have h1 : c3ann a = c3ann b := (List.cons.injEq _ _ _ _ ▸ hab).1
      exact c3ann_inj a b h1
    · exact List.nodup_range' _ _
  exact ⟨haux.1, hlen, hn, C3_history_bound c3ws [] c3wms rfl haux.1 hlen⟩

/-! ### Claim C10 -/

/-- C10: for every selection and page layout, the mapper emits its
annotations in strictly increasing `pageIndex` order, whatever the order
of the input rects (the grouping record is enumerated in ascending
numeric key order). -/
theorem C10_output_sorted (mkId : ℕ → String) (ty : AnnType)
    (clientRects : List ScreenRect) (pages : List PageLayer) :
    List.Pairwise (· < ·)
      ((mapSelectionToAnnotations mkId ty clientRects pages).map Annotation.pageIndex) := by
  rw [mapSelection_pageIndices]
  exact groupKeys_sorted pages (survivingRects clientRects)

/-! ### Claim C1 -/

/-- C1: when every surviving rect's center lies inside the box of the
single page `P` (and of no other page), the mapper emits exactly one
annotation on `P`, carrying the surviving rects in input order converted
by `relX = (left − page.left) / page.width · 100` (and analogously for
the other components); in particular the spec's numeric example holds. -/
theorem C1_single_page (mkId : ℕ → String) (ty : AnnType)
    (clientRects : List ScreenRect) (pages : List PageLayer) (P : PageLayer)
    (hP : P ∈ pages)
    (hne : survivingRects clientRects ≠ [])
    (hin : ∀ r ∈ survivingRects clientRects, containsCenter P r = true)
    (honly : ∀ r ∈ survivingRects clientRects, ∀ q ∈ pages,
      containsCenter q r = true → q = P) :
    mapSelectionToAnnotations mkId ty clientRects pages =
      [{ id := mkId 0, type := ty, pageIndex := P.pageIndex,
         rects := (survivingRects clientRects).map (toRelative P), note := none }] ∧
    mapSelectionToAnnotations (fun _ => "a") AnnType.highlight c1rects [c1page] =
      [{ id := "a", type := AnnType.highlight, pageIndex := 0,
         rects := [{ x := 5, y := 1, width := 25, height := 1/2 }], note := none }] := by
  constructor
  · have hassign : ∀ r ∈ survivingRects clientRects, targetPageFor pages r = some P := by
      intro r hr
      exact find?_unique pages _ P (fun q hq hcq => honly r hr q hq hcq) hP (hin r hr)
    obtain ⟨hgroup, hother⟩ :=
      groupFor_all_assigned pages (survivingRects clientRects) P hassign
    have hkeys : groupKeys pages (survivingRects clientRects) = [P.pageIndex] := by
      unfold groupKeys
      have hfc : ∀ k ∈ List.range (maxPageIndex pages + 1),
          (!(groupFor pages (survivingRects clientRects) k).isEmpty) =
            decide (k = P.pageIndex) := by
        intro k _
        by_cases hkP : k = P.pageIndex
        · subst hkP
          rw [hgroup]
          cases hsv : survivingRects clientRects with
          | nil => exact absurd hsv hne
          | cons a t => simp
        · rw [hother k hkP]
          simp [hkP]
      rw [List.filter_congr hfc]
      exact range_filter_eq_singleton _ _ (Nat.lt_succ_of_le (le_maxPageIndex pages P hP))
    simp only [mapSelectionToAnnotations]
    rw [hkeys]
    rw [show ([P.pageIndex] : List ℕ).enum = [(0, P.pageIndex)] from rfl]
    simp only [List.map_cons, List.map_nil, hgroup]
  · with_unfolding_all decide

/-- Witness for C1: the spec's numeric example discharges the general
theorem's hypotheses, and the general form evaluates to the example's
expected output. -/
theorem C1_witness :
    c1page ∈ [c1page] ∧ survivingRects c1rects ≠ [] ∧
    (∀ r ∈ survivingRects c1rects, containsCenter c1page r = true) ∧
    (∀ r ∈ survivingRects c1rects, ∀ q ∈ [c1page], containsCenter q r = true → q = c1page) ∧
    mapSelectionToAnnotations (fun _ => "a") AnnType.highlight c1rects [c1page] =
      [{ id := "a", type := AnnType.highlight, pageIndex := c1page.pageIndex,
         rects := (survivingRects c1rects).map (toRelative c1page), note := none }] := by
  have h := (C1_single_page (fun _ => "a") AnnType.highlight c1rects [c1page] c1page
    (by simp) (by with_unfolding_all decide) (by with_unfolding_all decide)
    (by with_unfolding_all decide)).1
  exact ⟨by simp, by with_unfolding_all decide, by with_unfolding_all decide,
    by with_unfolding_all decide, h⟩

/-! ### Claim C4 -/

/-- C4: when page indices are distinct and every surviving rect's center
lies in at most one page box, the mapper emits exactly one annotation
per page whose box contains some surviving center (N pages → N
annotations), their page indices are pairwise distinct, and each
annotation carries exactly the converted rects whose center fell inside
its page's box, in input order. -/
theorem C4_multi_page (mkId : ℕ → String) (ty : AnnType)
    (clientRects : List ScreenRect) (pages : List PageLayer)
    (hnodup : (pages.map PageLayer.pageIndex).Nodup)
    (hexcl : ∀ r ∈ survivingRects clientRects, ∀ p ∈ pages, containsCenter p r = true →
      ∀ q ∈ pages, containsCenter q r = true → q = p) :
    (mapSelectionToAnnotations mkId ty clientRects pages).length =
      (pages.filter (fun p => (survivingRects clientRects).any
        (fun r => containsCenter p r))).length ∧
    ((mapSelectionToAnnotations mkId ty clientRects pages).map Annotation.pageIndex).Nodup ∧
    (∀ a ∈ mapSelectionToAnnotations mkId ty clientRects pages,
      ∃ p ∈ pages, p.pageIndex = a.pageIndex ∧
        a.rects = (survivingRects clientRects).filterMap (fun r =>
          if containsCenter p r then some (toRelative p r) else none)) := by
  have hkeysNodup : (groupKeys pages (survivingRects clientRects)).Nodup :=
    (groupKeys_sorted pages (survivingRects clientRects)).imp (fun h => ne_of_lt h)
  have hassign_of : ∀ r ∈ survivingRects clientRects, ∀ p ∈ pages,
      containsCenter p r = true → targetPageFor pages r = some p := by
    intro r hr p hp hcc
    exact find?_unique pages _ p (fun q hq hcq => hexcl r hr p hp hcc q hq hcq) hp hcc
  have hmemiff : ∀ k, k ∈ groupKeys pages (survivingRects clientRects) ↔
      k ∈ (pages.filter (fun p => (survivingRects clientRects).any
        (fun r => containsCenter p r))).map PageLayer.pageIndex := by
    intro k
    rw [mem_groupKeys_iff]
    constructor
    · rintro ⟨-, r, hr, p, hp, hpk⟩
      have hpp : p ∈ pages := List.mem_of_find?_eq_some hp
      have hcc : containsCenter p r = true := targetPageFor_contains pages r p hp
      exact List.mem_map.mpr ⟨p, List.mem_filter.mpr
        ⟨hpp, List.any_eq_true.mpr ⟨r, hr, hcc⟩⟩, hpk⟩
    · intro hk
      obtain ⟨p, hpf, hpk⟩ := List.mem_map.mp hk
      obtain ⟨hpp, hany⟩ := List.mem_filter.mp hpf
      obtain ⟨r, hr, hcc⟩ := List.any_eq_true.mp hany
      refine ⟨?_, r, hr, p, hassign_of r hr p hpp hcc, hpk⟩
      have := le_maxPageIndex pages p hpp
      omega
  refine ⟨?_, ?_, ?_⟩
  · have h1 : (mapSelectionToAnnotations mkId ty clientRects pages).length =
        (groupKeys pages (survivingRects clientRects)).length := by
      simp [mapSelectionToAnnotations, List.enum_length]
    have hclaimedNodup : ((pages.filter (fun p => (survivingRects clientRects).any
        (fun r => containsCenter p r))).map PageLayer.pageIndex).Nodup :=
      hnodup.sublist ((List.filter_sublist pages).map PageLayer.pageIndex)
    have hperm := (List.perm_ext_iff_of_nodup hkeysNodup hclaimedNodup).mpr hmemiff
    rw [h1, hperm.length_eq, List.length_map]
  · rw [mapSelection_pageIndices]
    exact hkeysNodup
  · intro a ha
    obtain ⟨hk, -, hrects, -⟩ := mapSelection_mem mkId ty clientRects pages a ha
    obtain ⟨-, r0, hr0, p, hp, hpk⟩ := (mem_groupKeys_iff pages _ a.pageIndex).mp hk
    have hpp : p ∈ pages := List.mem_of_find?_eq_some hp
    refine ⟨p, hpp, hpk, ?_⟩
    rw [hrects]
    unfold groupFor
    apply List.filterMap_congr
    intro r hr
    cases ht : targetPageFor pages r with
    | none =>
      rw [assignRect_eq_none pages _ r ht]
      have hnc : containsCenter p r = false := by
        have hall := List.find?_eq_none.mp ht
        exact Bool.not_eq_true _ ▸ (by simpa using hall p hpp)
      rw [hnc]
      simp
    | some p' =>
      rw [assignRect_eq_some pages _ r p' ht]
      have hpp' : p' ∈ pages := targetPageFor_mem pages r p' ht
      have hcc' : containsCenter p' r = true := targetPageFor_contains pages r p' ht
      by_cases hcp : containsCenter p r = true
      · have hpe : p' = p := (hexcl r hr p' hpp' hcc' p hpp hcp).symm
        subst hpe
        rw [if_pos hcp, if_pos hpk]
      · have hcpf : containsCenter p r = false := by
          cases hcpv : containsCenter p r with
          | true => exact absurd hcpv hcp
          | false => rfl
        rw [hcpf]
        have hne : p'.pageIndex ≠ a.pageIndex := by
          intro he
          have : p' = p := List.inj_on_of_nodup_map hnodup hpp' hpp (by rw [he, hpk])
          subst this
          exact hcp hcc'
        rw [if_neg hne]
        simp

/-- Witness for C4: a two-page layout with one rect on each page yields
exactly two annotations with distinct page indices. -/
theorem C4_witness :
    (c4pages.map PageLayer.pageIndex).Nodup ∧
    (mapSelectionToAnnotations (fun _ => "a") AnnType.highlight c4rects c4pages).length =
      (c4pages.filter (fun p => (survivingRects c4rects).any
        (fun r => containsCenter p r))).length ∧
    (c4pages.filter (fun p => (survivingRects c4rects).any
      (fun r => containsCenter p r))).length = 2 ∧
    ((mapSelectionToAnnotations (fun _ => "a") AnnType.highlight c4rects c4pages).map
      Annotation.pageIndex).Nodup := by
  have h := C4_multi_page (fun _ => "a") AnnType.highlight c4rects c4pages
    (by with_unfolding_all decide) (by with_unfolding_all decide)
  exact ⟨by with_unfolding_all decide, h.1, by with_unfolding_all decide, h.2.1⟩

/-! ### Claim C6 -/

/-- Counterexample to C6 as stated: a wide selection rect whose center
is inside the page box but which overhangs the page's left and right
edges is converted without clamping, producing `x = −50 < 0` and
`x + width = 150 > 100` — the claimed Rect invariant fails. -/
theorem C6_counterexample :
    mapSelectionToAnnotations (fun _ => "a") AnnType.highlight [c6rect] [c6page] =
      [{ id := "a", type := AnnType.highlight, pageIndex := 0,
         rects := [{ x := -50, y := 10, width := 200, height := 10 }], note := none }] ∧
    ¬ (0 ≤ (-50 : ℚ)) ∧ ¬ ((-50 : ℚ) + 200 ≤ 100) := by
  with_unfolding_all decide

/-- C6 (amended): the Rect invariant `0 ≤ x, y`, `x+width ≤ 100`,
`y+height ≤ 100`, `width, height > 0` holds for every produced rect
provided the page boxes have positive dimensions and every surviving
rect lies entirely inside the box of any page containing its center
(the mapper does not clamp overhanging rects). -/
theorem C6_rect_invariant (mkId : ℕ → String) (ty : AnnType)
    (clientRects : List ScreenRect) (pages : List PageLayer)
    (hdim : ∀ p ∈ pages, 0 < p.rect.width ∧ 0 < p.rect.height)
    (hcont : ∀ r ∈ survivingRects clientRects, ∀ p ∈ pages, containsCenter p r = true →
      p.rect.left ≤ r.left ∧ r.left + r.width ≤ p.rect.left + p.rect.width ∧
      p.rect.top ≤ r.top ∧ r.top + r.height ≤ p.rect.top + p.rect.height) :
    ∀ a ∈ mapSelectionToAnnotations mkId ty clientRects pages, ∀ q ∈ a.rects,
      0 ≤ q.x ∧ 0 ≤ q.y ∧ q.x + q.width ≤ 100 ∧ q.y + q.height ≤ 100 ∧
      0 < q.width ∧ 0 < q.height := by
  intro a ha q hq
  obtain ⟨-, -, hrects, -⟩ := mapSelection_mem mkId ty clientRects pages a ha
  rw [hrects] at hq
  obtain ⟨r, hr, p, hp, -, hq'⟩ := mem_groupFor pages _ _ q hq
  have hpp : p ∈ pages := targetPageFor_mem pages r p hp
  have hcc : containsCenter p r = true := targetPageFor_contains pages r p hp
  obtain ⟨hw, hh⟩ := hdim p hpp
  obtain ⟨h1, h2, h3, h4⟩ := hcont r hr p hpp hcc
  have hrsz : 0 < r.width ∧ 0 < r.height := by
    have hmem := List.mem_filter.mp hr
    have hb := hmem.2
    simp only [Bool.and_eq_true, decide_eq_true_eq] at hb
    exact hb
  subst hq'
  have e100 : (0 : ℚ) < 100 := by norm_num
  refine ⟨?_, ?_, ?_, ?_, ?_, ?_⟩
  · show 0 ≤ (r.left - p.rect.left) / p.rect.width * 100
    exact mul_nonneg (div_nonneg (by linarith) hw.le) (by norm_num)
  · show 0 ≤ (r.top - p.rect.top) / p.rect.height * 100
    exact mul_nonneg (div_nonneg (by linarith) hh.le) (by norm_num)
  · show (r.left - p.rect.left) / p.rect.width * 100 +
        r.width / p.rect.width * 100 ≤ 100
    have hsum : (r.left - p.rect.left) / p.rect.width * 100 +
        r.width / p.rect.width * 100 =
        (r.left - p.rect.left + r.width) / p.rect.width * 100 := by
      ring
    rw [hsum]
    have hle1 : (r.left - p.rect.left + r.width) / p.rect.width ≤ 1 :=
      (div_le_one hw).mpr (by linarith)
    calc (r.left - p.rect.left + r.width) / p.rect.width * 100
        ≤ 1 * 100 := mul_le_mul_of_nonneg_right hle1 (by norm_num)
      _ = 100 := by norm_num
  · show (r.top - p.rect.top) / p.rect.height * 100 +
        r.height / p.rect.height * 100 ≤ 100
    have hsum : (r.top - p.rect.top) / p.rect.height * 100 +
        r.height / p.rect.height * 100 =
        (r.top - p.rect.top + r.height) / p.rect.height * 100 := by
      ring
    rw [hsum]
    have hle1 : (r.top - p.rect.top + r.height) / p.rect.height ≤ 1 :=
      (div_le_one hh).mpr (by linarith)
    calc (r.top - p.rect.top + r.height) / p.rect.height * 100
        ≤ 1 * 100 := mul_le_mul_of_nonneg_right hle1 (by norm_num)
      _ = 100 := by norm_num
  · show 0 < r.width / p.rect.width * 100
    exact mul_pos (div_pos hrsz.1 hw) e100
  · show 0 < r.height / p.rect.height * 100
    exact mul_pos (div_pos hrsz.2 hh) e100

/-- Witness for (amended) C6 at a selection fully inside the page box. -/
theorem C6_witness :
    (∀ p ∈ [c6wpage], 0 < p.rect.width ∧ 0 < p.rect.height) ∧
    (∀ r ∈ survivingRects c6wrects, ∀ p ∈ [c6wpage], containsCenter p r = true →
      p.rect.left ≤ r.left ∧ r.left + r.width ≤ p.rect.left + p.rect.width ∧
      p.rect.top ≤ r.top ∧ r.top + r.height ≤ p.rect.top + p.rect.height) ∧
    (∀ a ∈ mapSelectionToAnnotations (fun _ => "a") AnnType.highlight c6wrects [c6wpage],
      ∀ q ∈ a.rects,
        0 ≤ q.x ∧ 0 ≤ q.y ∧ q.x + q.width ≤ 100 ∧ q.y + q.height ≤ 100 ∧
        0 < q.width ∧ 0 < q.height) := by
  refine ⟨by with_unfolding_all decide, by with_unfolding_all decide, ?_⟩
  exact C6_rect_invariant (fun _ => "a") AnnType.highlight c6wrects [c6wpage]
    (by with_unfolding_all decide) (by with_unfolding_all decide)

/-! ### Claim C8 -/

theorem mapSelection_nil_of_no_survivor (mkId : ℕ → String) (ty : AnnType)
    (clientRects : List ScreenRect) (pages : List PageLayer)
    (hS : survivingRects clientRects = []) :
    mapSelectionToAnnotations mkId ty clientRects pages = [] := by
  have hkeys : groupKeys pages (survivingRects clientRects) = [] := by
    unfold groupKeys
    apply List.filter_eq_nil_iff.mpr
    intro k _
    rw [show groupFor pages (survivingRects clientRects) k = [] by
      unfold groupFor; rw [hS]; rfl]
    simp
  simp [mapSelectionToAnnotations, hkeys]

theorem mapSelection_nil_of_no_claim (mkId : ℕ → String) (ty : AnnType)
    (clientRects : List ScreenRect) (pages : List PageLayer)
    (hnc : ∀ r ∈ survivingRects clientRects, ∀ p ∈ pages, containsCenter p r = false) :
    mapSelectionToAnnotations mkId ty clientRects pages = [] := by
  have hkeys : groupKeys pages (survivingRects clientRects) = [] := by
    unfold groupKeys
    apply List.filter_eq_nil_iff.mpr
    intro k _
    rw [show groupFor pages (survivingRects clientRects) k = [] by
      unfold groupFor
      apply List.filterMap_eq_nil_iff.mpr
      intro r hr
      apply assignRect_eq_none
      apply List.find?_eq_none.mpr
      intro p hp
      simp [hnc r hr p hp]]
    simp
  simp [mapSelectionToAnnotations, hkeys]

/-- C8: the pointer-release handler leaves the entire state unchanged in
the neutral/cursor mode, when no input rect survives the degenerate
filter, and when no page box contains the center of any surviving rect —
an empty mapping result is a silent no-op. -/
theorem C8_noop_cases (mode : AnnotationMode) (sel : Option SelectionSnapshot)
    (pages : List PageLayer) (mkId : ℕ → String) (s : ViewState) :
    (mode = .cursor → persistSelection mode sel pages mkId s = s) ∧
    (∀ snap, sel = some snap → survivingRects snap.clientRects = [] →
      persistSelection mode sel pages mkId s = s) ∧
    (∀ snap, sel = some snap →
      (∀ r ∈ survivingRects snap.clientRects, ∀ p ∈ pages, containsCenter p r = false) →
      persistSelection mode sel pages mkId s = s) := by
  have hgo : ∀ ty : AnnType, ∀ snap, sel = some snap →
      mapSelectionToAnnotations mkId ty snap.clientRects pages = [] →
      persistSelectionGo ty sel pages mkId s = s := by
    intro ty snap hsel hnil
    rcases persistSelectionGo_cases ty sel pages mkId s with heq | ⟨hne, -⟩
    · exact heq
    · subst hsel
      simp only [Option.map_some', Option.getD_some] at hne
      exact absurd hnil hne
  refine ⟨?_, ?_, ?_⟩
  · intro h
    subst h
    rfl
  · intro snap hsel hS
    cases mode with
    | cursor => rfl
    | highlight =>
      exact hgo .highlight snap hsel
        (mapSelection_nil_of_no_survivor mkId .highlight snap.clientRects pages hS)
    | underline =>
      exact hgo .underline snap hsel
        (mapSelection_nil_of_no_survivor mkId .underline snap.clientRects pages hS)
  · intro snap hsel hnc
    cases mode with
    | cursor => rfl
    | highlight =>
      exact hgo .highlight snap hsel
        (mapSelection_nil_of_no_claim mkId .highlight snap.clientRects pages hnc)
    | underline =>
      exact hgo .underline snap hsel
        (mapSelection_nil_of_no_claim mkId .underline snap.clientRects pages hnc)

/-- Witness for C8: a neutral-mode release is suppressed, and in an
annotation mode a selection with only degenerate rects (also claimed by
no page) is a silent no-op. -/
theorem C8_witness :
    persistSelection .cursor (some c8snap) [] (fun _ => "a") c8s = c8s ∧
    persistSelection .highlight (some c8snap) [] (fun _ => "a") c8s = c8s ∧
    persistSelection .underline (some c8snap) [] (fun _ => "a") c8s = c8s := by
  refine ⟨(C8_noop_cases .cursor (some c8snap) [] (fun _ => "a") c8s).1 rfl, ?_, ?_⟩
  · exact (C8_noop_cases .highlight (some c8snap) [] (fun _ => "a") c8s).2.1 c8snap rfl
      (by with_unfolding_all decide)
  · exact (C8_noop_cases .underline (some c8snap) [] (fun _ => "a") c8s).2.2 c8snap rfl
      (by with_unfolding_all decide)

/-! ### Claim C9 -/

theorem findIndex_spec {α : Type} (p : α → Bool) :
    ∀ (l : List α) (i : ℕ) (a : α), findIndex p l = some i → l.get? i = some a →
      p a = true := by
  intro l
  induction l with
  | nil => intro i a h; simp [findIndex] at h
  | cons x t ih =>
    intro i a h hg
    by_cases hx : p x = true
    · unfold findIndex at h
      rw [if_pos hx] at h
      have hi : i = 0 := (Option.some_inj.mp h).symm
      subst hi
      have hax : x = a := by simpa using hg
      rw [← hax]
      exact hx
    · unfold findIndex at h
      rw [if_neg hx] at h
      cases hfi : findIndex p t with
      | none => rw [hfi] at h; simp at h
      | some j =>
        rw [hfi] at h
        simp only [Option.map_some'] at h
        have hi : i = j + 1 := (Option.some_inj.mp h).symm
        subst hi
        exact ih j a hfi (by simpa using hg)

theorem find?_set_of_findIndex {α : Type} (p : α → Bool) :
    ∀ (l : List α) (i : ℕ) (b : α), findIndex p l = some i → p b = true →
      (l.set i b).find? p = some b := by
  intro l
  induction l with
  | nil => intro i b h; simp [findIndex] at h
  | cons x t ih =>
    intro i b h hb
    by_cases hx : p x = true
    · unfold findIndex at h
      rw [if_pos hx] at h
      have hi : i = 0 := (Option.some_inj.mp h).symm
      subst hi
      rw [List.set_cons_zero]
      exact List.find?_cons_of_pos _ hb
    · unfold findIndex at h
      rw [if_neg hx] at h
      cases hfi : findIndex p t with
      | none => rw [hfi] at h; simp at h
      | some j =>
        rw [hfi] at h
        simp only [Option.map_some'] at h
        have hi : i = j + 1 := (Option.some_inj.mp h).symm
        subst hi
        rw [List.set_cons_succ]
        rw [List.find?_cons_of_neg _ hx]
        exact ih j b hfi hb

theorem findIndex_eq_none {α : Type} (p : α → Bool) (l : List α)
    (h : ∀ a ∈ l, p a = false) : findIndex p l = none := by
  induction l with
  | nil => rfl
  | cons x t ih =>
    unfold findIndex
    rw [if_neg (by simp [h x (by simp)]), ih (fun a ha => h a (List.mem_cons_of_mem x ha))]
    rfl

/-- C9: a PUT on a stored id merges exactly the provided body fields
over the stored record (omitted/null fields and all other stored fields
are preserved), responds with the updated record, and a subsequent GET
of the same id returns it — in particular the annotations sent are the
annotations read back.  A PUT on an absent id responds 404. -/
theorem C9_put_get (db : List PdfRecord) (pid : String) (b : PutBody) (i : ℕ)
    (old : PdfRecord) (missing : String)
    (hi : findIndex (fun p => decide (p.id = pid)) db = some i)
    (hold : db.get? i = some old)
    (habs : ∀ r ∈ db, r.id ≠ missing) :
    putPdf db pid b = .ok (db.set i (mergeRecord old b), mergeRecord old b) ∧
    ((mergeRecord old b).id = old.id ∧
     (mergeRecord old b).originalName = old.originalName ∧
     (mergeRecord old b).filename = old.filename ∧
     (mergeRecord old b).path = old.path ∧
     (mergeRecord old b).createdAt = old.createdAt ∧
     (b.title = none → (mergeRecord old b).title = old.title) ∧
     (∀ t, b.title = some t → (mergeRecord old b).title = t) ∧
     (b.author = none → (mergeRecord old b).author = old.author) ∧
     (∀ t, b.author = some t → (mergeRecord old b).author = t) ∧
     (b.journal = none → (mergeRecord old b).journal = old.journal) ∧
     (∀ t, b.journal = some t → (mergeRecord old b).journal = t) ∧
     (b.annotations = none → (mergeRecord old b).annotations = old.annotations) ∧
     (∀ anns, b.annotations = some anns → (mergeRecord old b).annotations = anns)) ∧
    getPdf (db.set i (mergeRecord old b)) pid = .ok (mergeRecord old b) ∧
    putPdf db missing b = .error 404 := by
  refine ⟨?_, ?_, ?_, ?_⟩
  · simp only [putPdf, hi, hold]
  · refine ⟨rfl, rfl, rfl, rfl, rfl, ?_, ?_, ?_, ?_, ?_, ?_, ?_, ?_⟩
    all_goals
      first
      | (intro h; simp [mergeRecord, h])
      | (intro t h; simp [mergeRecord, h])
  · have hpid : old.id = pid := by
      have := findIndex_spec (fun p => decide (p.id = pid)) db i old hi hold
      simpa using this
    have hmerge_id : (mergeRecord old b).id = old.id := rfl
    have hfind : (db.set i (mergeRecord old b)).find? (fun p => decide (p.id = pid)) =
        some (mergeRecord old b) := by
      apply find?_set_of_findIndex _ db i _ hi
      simp [hmerge_id, hpid]
    unfold getPdf
    rw [hfind]
  · unfold putPdf
    rw [findIndex_eq_none _ db (fun r hr => by simp [habs r hr])]

/-- Witness for C9: a one-record store, a PUT providing `author` and
`annotations`, a GET reading the merged record back, and a 404 on an
absent id. -/
theorem C9_witness :
    findIndex (fun p => decide (p.id = "d1")) [c9old] = some 0 ∧
    ([c9old] : List PdfRecord).get? 0 = some c9old ∧
    (∀ r ∈ [c9old], r.id ≠ "nope") ∧
    putPdf [c9old] "d1" c9body =
      .ok ([c9old].set 0 (mergeRecord c9old c9body), mergeRecord c9old c9body) ∧
    getPdf ([c9old].set 0 (mergeRecord c9old c9body)) "d1" = .ok (mergeRecord c9old c9body) ∧
    (mergeRecord c9old c9body).annotations = [c9ann] ∧
    (mergeRecord c9old c9body).title = "t" ∧
    (mergeRecord c9old c9body).author = "au" ∧
    putPdf [c9old] "nope" c9body = .error 404 := by
  have h := C9_put_get [c9old] "d1" c9body 0 c9old "nope" rfl rfl (by decide)
  exact ⟨rfl, rfl, by decide, h.1, h.2.2.1, by decide, by decide, by decide, h.2.2.2⟩

end PdfPile
